import Mathlib

/-!
Verification of the authorization and content-lifecycle core of the Blog
repository.  The repository itself contains the design documents, database
schema and test plans for this core; the decision logic is embedded here
from the specification, faithfully to its words, and the testable
properties are settled against that embedding.
-/

namespace Blog

/-- Modelled from the spec: the role enumeration
`{Anonymous, Reader, Writer, Admin}`; roles form a total order
`Reader < Writer < Admin` for permission escalation, with `Anonymous`
below all of them. -/
inductive Role
  | anonymous
  | reader
  | writer
  | admin
deriving DecidableEq

/-- Modelled from the spec: the position of a role in the total order used
for permission escalation. -/
def Role.rank : Role → Nat
  | .anonymous => 0
  | .reader => 1
  | .writer => 2
  | .admin => 3

/-- Modelled from the spec: a principal is a user id together with a set of
roles (represented as a list). -/
structure Principal where
  id : Nat
  roles : List Role
deriving DecidableEq

/-- Modelled from the spec: the kind of a resource reference. -/
inductive ResKind
  | post
  | comment
  | user
  | taxonomy
deriving DecidableEq

/-- Modelled from the spec: a resource reference
`{kind, id, owner_id | absent}`. -/
structure ResourceReference where
  kind : ResKind
  id : Nat
  owner_id : Option Nat
deriving DecidableEq

/-- Modelled from the spec: the action enumeration relevant to the core. -/
inductive Action
  | createPost
  | editPost
  | publishPost
  | unpublishPost
  | deletePost
  | createComment
  | editComment
  | deleteComment
  | replyToComment
  | manageUsers
  | viewAdminStats
deriving DecidableEq

/-- Modelled from the spec: the minimum-role table of the policy engine. -/
def minRole : Action → Role
  | .createPost => .writer
  | .editPost => .writer
  | .publishPost => .writer
  | .unpublishPost => .writer
  | .deletePost => .writer
  | .createComment => .reader
  | .editComment => .reader
  | .deleteComment => .reader
  | .replyToComment => .reader
  | .manageUsers => .admin
  | .viewAdminStats => .admin

/-- Modelled from the spec: the ownership-sensitive actions are
`EditPost`, `DeletePost`, `EditComment` and `DeleteComment`. -/
def ownershipSensitive : Action → Bool
  | .editPost => true
  | .deletePost => true
  | .editComment => true
  | .deleteComment => true
  | _ => false

/-- Modelled from the spec: the policy-denial reasons. -/
inductive DenialReason
  | insufficientRole
  | notOwner
  | missingResource
deriving DecidableEq

/-- Modelled from the spec: a decision `{allowed : bool, reason | absent}`. -/
structure Decision where
  allowed : Bool
  reason : Option DenialReason
deriving DecidableEq

/-- Modelled from the spec: whether the principal holds the `Admin` role. -/
def Principal.isAdmin (p : Principal) : Bool :=
  p.roles.contains .admin

/-- Modelled from the spec: whether the principal holds a role at least as
high as `r` in the hierarchy (a higher role implicitly holds all
capabilities of lower roles). -/
def Principal.hasRoleAtLeast (p : Principal) (r : Role) : Bool :=
  p.roles.any (fun q => r.rank ≤ q.rank)

/-- Modelled from the spec: the policy engine
`can(principal, action, resource | absent) -> Decision`, rules evaluated in
precedence order: (1) Admin allows everything unconditionally; (2) lacking
a role at least the minimum role denies with `InsufficientRole`; (3) for an
ownership-sensitive action an absent resource denies with `MissingResource`
and a non-matching `owner_id` denies with `NotOwner`; (4) otherwise allow. -/
def can (p : Principal) (a : Action) (res : Option ResourceReference) : Decision :=
  if p.isAdmin then ⟨true, none⟩
  else if ¬ p.hasRoleAtLeast (minRole a) then ⟨false, some .insufficientRole⟩
  else if ownershipSensitive a then
    match res with
    | none => ⟨false, some .missingResource⟩
    | some r =>
      if r.owner_id = some p.id then ⟨true, none⟩
      else ⟨false, some .notOwner⟩
  else ⟨true, none⟩

/-- Modelled from the spec: the implicit principal used when no credential
is resolved. -/
def anonymousPrincipal : Principal := ⟨0, [.anonymous]⟩

/-- Modelled from the spec: the outcome of the external credential
validation collaborator — either the credential fails validation, or it
decodes to a known user id with its (possibly empty) role assignment. -/
inductive CredCheck
  | invalid
  | known (uid : Nat) (roles : List Role)
deriving DecidableEq

/-- Modelled from the spec: the principal resolver
`resolve(credential | absent) -> Principal`; an absent or invalid
credential yields the `Anonymous` principal, and a known user with no role
assignment defaults to `{Reader}`. -/
def resolve : Option CredCheck → Principal
  | none => anonymousPrincipal
  | some .invalid => anonymousPrincipal
  | some (.known uid rs) => ⟨uid, if rs = [] then [.reader] else rs⟩

/-- Modelled from the spec: the post lifecycle states `{Draft, Published}`. -/
inductive PostState
  | draft
  | published
deriving DecidableEq

/-- Modelled from the spec: a post, carrying its id, the id of the user who
created it, its lifecycle state and its content. -/
structure Post where
  id : Nat
  owner_id : Nat
  state : PostState
  content : String
deriving DecidableEq

/-- Modelled from the spec: the resource reference describing a post, used
for policy checks (owner is the creating user). -/
def postResource (post : Post) : ResourceReference :=
  ⟨.post, post.id, some post.owner_id⟩

/-- Modelled from the spec: the closed error surface of the core — policy
denials, lifecycle conflicts (`AlreadyPublished`, `NotPublished`,
`PostNotCommentable`), the structural violation `CrossPostReply`, the
administrative rule `SelfDeletionForbidden` — together with the not-found
outcome the endpoint test plans require for mutations addressed at an
id that is absent from the store. -/
inductive OpError
  | denied (reason : Option DenialReason)
  | alreadyPublished
  | notPublished
  | postNotCommentable
  | crossPostReply
  | selfDeletionForbidden
  | notFound
deriving DecidableEq

/-- Modelled from the spec: `publish(principal, post)` — requires
`can(principal, PublishPost, post)` to allow and the current state to be
`Draft`; an already published post is rejected with `AlreadyPublished`. -/
def publish (p : Principal) (post : Post) : Except OpError Post :=
  let d := can p .publishPost (some (postResource post))
  if d.allowed then
    match post.state with
    | .draft => .ok { post with state := .published }
    | .published => .error .alreadyPublished
  else .error (.denied d.reason)

/-- Modelled from the spec: `unpublish(principal, post)` — symmetric to
`publish`; requires state `Published`, else `NotPublished`. -/
def unpublish (p : Principal) (post : Post) : Except OpError Post :=
  let d := can p .unpublishPost (some (postResource post))
  if d.allowed then
    match post.state with
    | .published => .ok { post with state := .draft }
    | .draft => .error .notPublished
  else .error (.denied d.reason)

/-- Modelled from the spec: look a post up by id in the store. -/
def findPost (posts : List Post) (postId : Nat) : Option Post :=
  posts.find? (fun q => q.id = postId)

/-- Modelled from the spec: write an updated post back into the store. -/
def replacePost (posts : List Post) (post : Post) : List Post :=
  posts.map (fun q => if q.id = post.id then post else q)

/-- Modelled from the spec: the id-addressed publish operation; a missing
post id yields the not-found outcome and leaves the store unchanged. -/
def publishPostById (p : Principal) (posts : List Post) (postId : Nat) :
    Except OpError Unit × List Post :=
  match findPost posts postId with
  | none => (.error .notFound, posts)
  | some post =>
    match publish p post with
    | .ok post2 => (.ok (), replacePost posts post2)
    | .error e => (.error e, posts)

/-- Modelled from the spec: the id-addressed unpublish operation. -/
def unpublishPostById (p : Principal) (posts : List Post) (postId : Nat) :
    Except OpError Unit × List Post :=
  match findPost posts postId with
  | none => (.error .notFound, posts)
  | some post =>
    match unpublish p post with
    | .ok post2 => (.ok (), replacePost posts post2)
    | .error e => (.error e, posts)

/-- Modelled from the spec: `edit(principal, post, new_content)` addressed
by id — requires `can(principal, EditPost, post)` to allow; permitted in
either lifecycle state and does not change the state. -/
def updatePostById (p : Principal) (posts : List Post) (postId : Nat)
    (newContent : String) : Except OpError Unit × List Post :=
  match findPost posts postId with
  | none => (.error .notFound, posts)
  | some post =>
    let d := can p .editPost (some (postResource post))
    if d.allowed then
      (.ok (), replacePost posts { post with content := newContent })
    else (.error (.denied d.reason), posts)

/-- Modelled from the spec: a comment node, following the comments table of
the database schema: id, post id, authoring user id, optional parent
comment id, content and creation time. -/
structure Comment where
  id : Nat
  post_id : Nat
  author_id : Nat
  parent_comment_id : Option Nat
  content : String
  created_at : Nat
deriving DecidableEq

/-- Modelled from the spec: the resource reference describing a comment
(owner is the authoring user). -/
def commentResource (c : Comment) : ResourceReference :=
  ⟨.comment, c.id, some c.author_id⟩

/-- Modelled from the spec: look a comment up by id in the store. -/
def findComment (store : List Comment) (commentId : Nat) : Option Comment :=
  store.find? (fun c => c.id = commentId)

/-- Modelled from the spec: `delete(principal, post)` addressed by id —
requires `can(principal, DeletePost, post)` to allow; deletion cascades to
all comments on the post. -/
def deletePostById (p : Principal) (posts : List Post) (store : List Comment)
    (postId : Nat) : Except OpError Unit × List Post × List Comment :=
  match findPost posts postId with
  | none => (.error .notFound, posts, store)
  | some post =>
    let d := can p .deletePost (some (postResource post))
    if d.allowed then
      (.ok (), posts.filter (fun q => q.id ≠ postId),
        store.filter (fun c => c.post_id ≠ postId))
    else (.error (.denied d.reason), posts, store)

/-- Modelled from the spec: `create_root(principal, post, content)` —
requires `can(principal, CreateComment, post)` to allow and the post to be
`Published` (comments are disallowed on drafts, rejected with
`PostNotCommentable`); produces a new root comment. -/
def createRoot (p : Principal) (post : Post) (store : List Comment)
    (content : String) (freshId now : Nat) : Except OpError Unit × List Comment :=
  let d := can p .createComment (some (postResource post))
  if d.allowed then
    match post.state with
    | .published => (.ok (), ⟨freshId, post.id, p.id, none, content, now⟩ :: store)
    | .draft => (.error .postNotCommentable, store)
  else (.error (.denied d.reason), store)

/-- Modelled from the spec: construction of a reply under a given parent
comment with an explicitly specified post id.  The structural invariant —
a reply must carry its parent comment's post id — is checked first and a
violation is rejected with `CrossPostReply` before authorization is
evaluated; then `can(principal, ReplyToComment, post resource)` must allow. -/
def constructReply (p : Principal) (store : List Comment) (postId : Nat)
    (parent : Comment) (content : String) (freshId now : Nat) :
    Except OpError Unit × List Comment :=
  if parent.post_id ≠ postId then (.error .crossPostReply, store)
  else
    let d := can p .replyToComment (some ⟨.post, parent.post_id, none⟩)
    if d.allowed then
      (.ok (), ⟨freshId, postId, p.id, some parent.id, content, now⟩ :: store)
    else (.error (.denied d.reason), store)

/-- Modelled from the spec: `reply(principal, parent_comment, content)`
addressed by parent id — the parent comment must exist (else not-found);
the produced comment inherits its post id from the parent and references
the parent. -/
def replyById (p : Principal) (store : List Comment) (parentId : Nat)
    (content : String) (freshId now : Nat) : Except OpError Unit × List Comment :=
  match findComment store parentId with
  | none => (.error .notFound, store)
  | some parent => constructReply p store parent.post_id parent content freshId now

/-- Modelled from the spec: `edit(principal, comment, new_content)`
addressed by id — requires `can(principal, EditComment, comment)` to
allow (owner or Admin). -/
def editCommentById (p : Principal) (store : List Comment) (commentId : Nat)
    (newContent : String) : Except OpError Unit × List Comment :=
  match findComment store commentId with
  | none => (.error .notFound, store)
  | some c =>
    let d := can p .editComment (some (commentResource c))
    if d.allowed then
      (.ok (), store.map (fun q => if q.id = commentId then { q with content := newContent } else q))
    else (.error (.denied d.reason), store)

/-- Modelled from the spec: the admin gate for deleting a user — the call
must pass `can(principal, ManageUsers, target)` first, a missing target id
is the not-found outcome, and an admin may not delete their own account
(`SelfDeletionForbidden`). -/
def adminDeleteUser (p : Principal) (users : List Nat) (targetId : Nat) :
    Except OpError Unit × List Nat :=
  let d := can p .manageUsers (some ⟨.user, targetId, none⟩)
  if d.allowed then
    if targetId ∈ users then
      if targetId = p.id then (.error .selfDeletionForbidden, users)
      else (.ok (), users.filter (fun u => u ≠ targetId))
    else (.error .notFound, users)
  else (.error (.denied d.reason), users)

/-- Modelled from the spec: the set of comment ids present in the store. -/
def commentIdSet (store : List Comment) : Finset Nat :=
  (store.map (fun c => c.id)).toFinset

/-- Modelled from the spec: one step of the iterative reachability scan
used for cascade deletion — add to the id set the ids of every comment
whose parent is already in the set. -/
def childStep (store : List Comment) (s : Finset Nat) : Finset Nat :=
  s ∪ ((store.filter fun c =>
    match c.parent_comment_id with
    | some pid => decide (pid ∈ s)
    | none => false).map (fun c => c.id)).toFinset

/-- Modelled from the spec: the ids of the subtree rooted at `root` —
`root` itself plus every descendant — computed by iterating the
reachability step to its fixpoint (the store's size bounds the number of
useful iterations). -/
def subtreeIds (store : List Comment) (root : Nat) : Finset Nat :=
  (childStep store)^[store.length + 1] {root}

/-- Modelled from the spec: cascade removal of the subtree rooted at
`root` from the store. -/
def removeSubtree (store : List Comment) (root : Nat) : List Comment :=
  store.filter (fun c => decide (c.id ∉ subtreeIds store root))

/-- Modelled from the spec: `delete(principal, comment)` addressed by id —
the comment must exist (else not-found), `can(principal, DeleteComment,
comment)` must allow (owner or Admin), and on success the entire reply
subtree is removed in one unit. -/
def deleteCommentById (p : Principal) (store : List Comment) (commentId : Nat) :
    Except OpError Unit × List Comment :=
  match findComment store commentId with
  | none => (.error .notFound, store)
  | some c =>
    let d := can p .deleteComment (some (commentResource c))
    if d.allowed then (.ok (), removeSubtree store commentId)
    else (.error (.denied d.reason), store)

/-- The descendant relation of the comment tree: `Desc store root x` holds
when the comment with id `x` lies strictly below the comment with id
`root`, through any number of parent links within the store. -/
inductive Desc (store : List Comment) (root : Nat) : Nat → Prop
  | child (c : Comment) : c ∈ store → c.parent_comment_id = some root →
      Desc store root c.id
  | step (b : Nat) (c : Comment) : Desc store root b → c ∈ store →
      c.parent_comment_id = some b → Desc store root c.id

/-- The comments of the store that are strict descendants of `root`,
computed from the reachability scan. -/
def descendantComments (store : List Comment) (root : Nat) : List Comment :=
  store.filter (fun c => decide (c.id ≠ root ∧ c.id ∈ subtreeIds store root))

/-- Modelled from the spec: the structural invariant of the comment store —
every present parent reference resolves to an existing comment of the same
post (no dangling parents, no cross-post reply chains). -/
def parentsConsistent (store : List Comment) : Prop :=
  ∀ c ∈ store, ∀ pid, c.parent_comment_id = some pid →
    ∃ q ∈ store, q.id = pid ∧ q.post_id = c.post_id

/-- Modelled from the spec: no stored reply carries a post id different
from its parent comment's post id. -/
def sameParentPost (store : List Comment) : Prop :=
  ∀ c ∈ store, ∀ q ∈ store, c.parent_comment_id = some q.id →
    c.post_id = q.post_id

/-- C5: for every credential input — including an absent credential and one
that fails external validation — `resolve` returns a `Principal` and never
fails: the absent and invalid cases yield the `Anonymous` principal as a
valid result, and every resolved principal carries at least one role. -/
theorem resolve_never_fails :
    resolve none = anonymousPrincipal ∧
    resolve (some .invalid) = anonymousPrincipal ∧
    ∀ cred : Option CredCheck, (resolve cred).roles ≠ [] := by
  refine ⟨rfl, rfl, ?_⟩
  rintro (_ | cc)
  · simp [resolve, anonymousPrincipal]
  · cases cc with
    | invalid => simp [resolve, anonymousPrincipal]
    | known uid rs => cases rs <;> simp [resolve]

/-- C1: for every principal `p`, every ownership-sensitive action `a` and
every resource `r` carrying an owner id, `can p a r` allows iff `p` holds
the Admin role, or `p` meets the minimum role required for `a` (holds a
role at least that high in the hierarchy, which is what the spec's role
order makes of containing the minimum role) and `p.id` equals the owner
id; in every other case it returns a denial (a reason is present). -/
theorem can_ownership_gate (p : Principal) (a : Action) (r : ResourceReference) (o : Nat)
    (ha : a = .editPost ∨ a = .deletePost ∨ a = .editComment ∨ a = .deleteComment)
    (ho : r.owner_id = some o) :
    ((can p a (some r)).allowed = true ↔
      (p.isAdmin = true ∨ (p.hasRoleAtLeast (minRole a) = true ∧ p.id = o))) ∧
    ((can p a (some r)).allowed = false → (can p a (some r)).reason ≠ none) := by
  have hsens : ownershipSensitive a = true := by
    rcases ha with h | h | h | h <;> subst h <;> rfl
  by_cases hadm : p.isAdmin
  · constructor
    · simp [can, hadm]
    · simp [can, hadm]
  · by_cases hrole : p.hasRoleAtLeast (minRole a) = true
    · by_cases hown : r.owner_id = some p.id
      · have hpo : p.id = o := by
          rw [ho] at hown
          exact (Option.some.injEq _ _ ▸ hown.symm :)
        constructor
        · simp [can, hadm, hrole, hsens, hown, hpo]
        · simp [can, hadm, hrole, hsens, hown]
      · have hpo : ¬ p.id = o := by
          intro h
          exact hown (by rw [ho, h])
        constructor
        · simp [can, hadm, hrole, hsens, hown, hpo]
        · simp [can, hadm, hrole, hsens, hown]
    · constructor
      · simp [can, hadm, hrole]
      · simp [can, hadm, hrole]

/-- Witness for C1 at a concrete input: a writer editing their own post. -/
theorem can_ownership_gate_witness :
    (((can ⟨7, [.writer]⟩ .editPost (some ⟨.post, 1, some 7⟩)).allowed = true ↔
      ((Principal.mk 7 [.writer]).isAdmin = true ∨
        ((Principal.mk 7 [.writer]).hasRoleAtLeast (minRole .editPost) = true ∧
          (Principal.mk 7 [.writer]).id = 7))) ∧
    ((can ⟨7, [.writer]⟩ .editPost (some ⟨.post, 1, some 7⟩)).allowed = false →
      (can ⟨7, [.writer]⟩ .editPost (some ⟨.post, 1, some 7⟩)).reason ≠ none)) :=
  can_ownership_gate ⟨7, [.writer]⟩ .editPost ⟨.post, 1, some 7⟩ 7 (Or.inl rfl) rfl

/-- Monotonicity core: a principal at least as privileged as another is
allowed whatever the other is allowed, for the same id and resource. -/
theorem can_mono_aux (p1 p2 : Principal) (hid : p1.id = p2.id)
    (hadm : p1.isAdmin = true → p2.isAdmin = true)
    (hrole : ∀ m, p1.hasRoleAtLeast m = true → p2.hasRoleAtLeast m = true)
    (a : Action) (r : Option ResourceReference)
    (h : (can p1 a r).allowed = true) : (can p2 a r).allowed = true := by
  by_cases h2 : p2.isAdmin
  · simp [can, h2]
  · have h1 : ¬ p1.isAdmin = true := fun hh => h2 (hadm hh)
    by_cases hr1 : p1.hasRoleAtLeast (minRole a) = true
    · have hr2 := hrole _ hr1
      by_cases hs : ownershipSensitive a = true
      · cases r with
        | none => simp [can, h1, hr1, hs] at h
        | some rr =>
          by_cases hown : rr.owner_id = some p1.id
          · have hown2 : rr.owner_id = some p2.id := by rw [hown, hid]
            simp [can, h2, hr2, hs, hown2]
          · simp [can, h1, hr1, hs, hown] at h
      · simp [can, h2, hr2, hs]
    · simp [can, h1, hr1] at h

/-- C6: for every action and resource, and any two principals identical
except for role: if `can` allows for the principal with role Reader, the
same call also allows for the principal with role Writer and for the
principal with role Admin (same id, same ownership). -/
theorem can_role_monotone (a : Action) (r : Option ResourceReference) (uid : Nat)
    (h : (can ⟨uid, [.reader]⟩ a r).allowed = true) :
    (can ⟨uid, [.writer]⟩ a r).allowed = true ∧
    (can ⟨uid, [.admin]⟩ a r).allowed = true := by
  constructor
  · refine can_mono_aux ⟨uid, [.reader]⟩ ⟨uid, [.writer]⟩ rfl ?_ ?_ a r h
    · intro hh
      simp [Principal.isAdmin] at hh
    · intro m hm
      cases m <;> simp_all [Principal.hasRoleAtLeast, Role.rank]
  · refine can_mono_aux ⟨uid, [.reader]⟩ ⟨uid, [.admin]⟩ rfl ?_ ?_ a r h
    · intro hh
      rfl
    · intro m hm
      cases m <;> simp [Principal.hasRoleAtLeast, Role.rank]

/-- Witness for C6 at a concrete input: a reader may create a comment, so
may a writer and an admin with the same id. -/
theorem can_role_monotone_witness :
    (can ⟨3, [.writer]⟩ .createComment none).allowed = true ∧
    (can ⟨3, [.admin]⟩ .createComment none).allowed = true :=
  can_role_monotone .createComment none 3 rfl

/-- C2: an admin-path delete of a user resource whose id equals the
calling principal's own id returns `SelfDeletionForbidden` whenever the
caller passes the `ManageUsers` gate — in particular for every Admin —
deletes nothing, and never succeeds for any principal; the Admin
unconditional-allow rule does not override the self-deletion check. -/
theorem adminDeleteUser_self_forbidden (p : Principal) (users : List Nat)
    (hmem : p.id ∈ users) :
    ((can p .manageUsers (some ⟨.user, p.id, none⟩)).allowed = true →
      (adminDeleteUser p users p.id).1 = .error .selfDeletionForbidden) ∧
    (p.isAdmin = true →
      (adminDeleteUser p users p.id).1 = .error .selfDeletionForbidden) ∧
    (adminDeleteUser p users p.id).2 = users ∧
    ∀ u : Unit, (adminDeleteUser p users p.id).1 ≠ .ok u := by
  by_cases hd : (can p .manageUsers (some ⟨.user, p.id, none⟩)).allowed = true
  · refine ⟨fun _ => ?_, fun _ => ?_, ?_, fun u => ?_⟩ <;>
      simp [adminDeleteUser, hd, hmem]
  · have hna : ¬ p.isAdmin = true := by
      intro hh
      exact hd (by simp [can, hh])
    refine ⟨fun hc => absurd hc hd, fun hc => absurd hc hna, ?_, fun u => ?_⟩ <;>
      simp [adminDeleteUser, hd]

/-- Witness for C2 at a concrete input: the admin with id 1 deleting user
id 1 from the store `[1, 2]`. -/
theorem adminDeleteUser_self_forbidden_witness :
    ((can ⟨1, [.admin]⟩ .manageUsers (some ⟨.user, 1, none⟩)).allowed = true →
      (adminDeleteUser ⟨1, [.admin]⟩ [1, 2] 1).1 = .error .selfDeletionForbidden) ∧
    ((Principal.mk 1 [.admin]).isAdmin = true →
      (adminDeleteUser ⟨1, [.admin]⟩ [1, 2] 1).1 = .error .selfDeletionForbidden) ∧
    (adminDeleteUser ⟨1, [.admin]⟩ [1, 2] 1).2 = [1, 2] ∧
    ∀ u : Unit, (adminDeleteUser ⟨1, [.admin]⟩ [1, 2] 1).1 ≠ .ok u :=
  adminDeleteUser_self_forbidden ⟨1, [.admin]⟩ [1, 2] (by simp)

/-- C3: for every authorized principal, publishing a post that is already
`Published` returns `AlreadyPublished` and the store is unchanged;
symmetrically, unpublishing a post in state `Draft` returns `NotPublished`
and the store is unchanged; both are lifecycle conflicts distinct from
every policy denial. -/
theorem lifecycle_conflicts (p : Principal) (posts : List Post) (postId : Nat)
    (post : Post) (hfind : findPost posts postId = some post) :
    ((can p .publishPost (some (postResource post))).allowed = true →
      post.state = .published →
      publishPostById p posts postId = (.error .alreadyPublished, posts)) ∧
    ((can p .unpublishPost (some (postResource post))).allowed = true →
      post.state = .draft →
      unpublishPostById p posts postId = (.error .notPublished, posts)) ∧
    ∀ dr, OpError.alreadyPublished ≠ .denied dr ∧ OpError.notPublished ≠ .denied dr := by
  refine ⟨fun hcan hst => ?_, fun hcan hst => ?_, fun dr => ⟨by simp, by simp⟩⟩
  · unfold publishPostById
    rw [hfind]
    simp [publish, hcan, hst]
  · unfold unpublishPostById
    rw [hfind]
    simp [unpublish, hcan, hst]

/-- Witness for C3 at a concrete input: the owning writer republishing a
published post and unpublishing a draft. -/
theorem lifecycle_conflicts_witness :
    ((can ⟨7, [.writer]⟩ .publishPost (some (postResource ⟨1, 7, .published, "x"⟩))).allowed = true →
      PostState.published = .published →
      publishPostById ⟨7, [.writer]⟩ [⟨1, 7, .published, "x"⟩] 1 =
        (.error .alreadyPublished, [⟨1, 7, .published, "x"⟩])) ∧
    ((can ⟨7, [.writer]⟩ .unpublishPost (some (postResource ⟨1, 7, .published, "x"⟩))).allowed = true →
      PostState.published = .draft →
      unpublishPostById ⟨7, [.writer]⟩ [⟨1, 7, .published, "x"⟩] 1 =
        (.error .notPublished, [⟨1, 7, .published, "x"⟩])) ∧
    ∀ dr, OpError.alreadyPublished ≠ .denied dr ∧ OpError.notPublished ≠ .denied dr :=
  lifecycle_conflicts ⟨7, [.writer]⟩ [⟨1, 7, .published, "x"⟩] 1 ⟨1, 7, .published, "x"⟩ rfl

/-- C8: replying under an existing parent comment produces exactly one new
comment that inherits the parent's post id and references the parent; if
the parent does not exist, the call returns the not-found error and no
comment is produced. -/
theorem replyById_spec (p : Principal) (store : List Comment) (parentId : Nat)
    (content : String) (freshId now : Nat) :
    (∀ parent, findComment store parentId = some parent →
      (can p .replyToComment (some ⟨.post, parent.post_id, none⟩)).allowed = true →
      replyById p store parentId content freshId now =
        (.ok (), ⟨freshId, parent.post_id, p.id, some parent.id, content, now⟩ :: store)) ∧
    (findComment store parentId = none →
      replyById p store parentId content freshId now = (.error .notFound, store)) := by
  constructor
  · intro parent hf hcan
    unfold replyById
    rw [hf]
    simp [constructReply, hcan]
  · intro hf
    unfold replyById
    rw [hf]

/-- Witness for C8 at concrete inputs: a reply under comment 2 of a
two-comment store, and a reply under a missing id in the empty store. -/
theorem replyById_spec_witness :
    replyById ⟨9, [.reader]⟩ [⟨1, 10, 7, none, "a", 0⟩, ⟨2, 10, 8, some 1, "b", 0⟩] 2 "r" 5 3 =
      (.ok (), [⟨5, 10, 9, some 2, "r", 3⟩, ⟨1, 10, 7, none, "a", 0⟩, ⟨2, 10, 8, some 1, "b", 0⟩]) ∧
    replyById ⟨9, [.reader]⟩ [] 2 "r" 5 3 = (.error .notFound, []) :=
  ⟨(replyById_spec ⟨9, [.reader]⟩ [⟨1, 10, 7, none, "a", 0⟩, ⟨2, 10, 8, some 1, "b", 0⟩]
      2 "r" 5 3).1 ⟨2, 10, 8, some 1, "b", 0⟩ rfl rfl,
    (replyById_spec ⟨9, [.reader]⟩ [] 2 "r" 5 3).2 rfl⟩

/-- C4 counterexample: the claim as stated fails for a principal that is
not authorized to comment — `create_root` for the Anonymous principal on a
draft post returns the policy denial `InsufficientRole`, not
`PostNotCommentable` (the spec's error taxonomy makes lifecycle conflicts
the outcome for authorized actors only). -/
theorem createRoot_draft_counterexample :
    createRoot anonymousPrincipal ⟨1, 5, .draft, "d"⟩ [] "hello" 10 0 =
      (.error (.denied (some .insufficientRole)), []) ∧
    OpError.denied (some .insufficientRole) ≠ .postNotCommentable :=
  ⟨rfl, by simp⟩

/-- C4 (amended): for every principal `p` allowed by
`can(p, CreateComment, post)` and every post in state `Draft`,
`create_root` returns `PostNotCommentable` and creates no comment; a root
comment is created only when the post is `Published` and `can` allows, and
every failing call leaves the store unchanged. -/
theorem createRoot_postNotCommentable (p : Principal) (post : Post)
    (store : List Comment) (content : String) (freshId now : Nat) :
    ((can p .createComment (some (postResource post))).allowed = true →
      post.state = .draft →
      createRoot p post store content freshId now = (.error .postNotCommentable, store)) ∧
    ((createRoot p post store content freshId now).1 = .ok () →
      post.state = .published ∧
      (can p .createComment (some (postResource post))).allowed = true ∧
      (createRoot p post store content freshId now).2 =
        ⟨freshId, post.id, p.id, none, content, now⟩ :: store) ∧
    (∀ e, (createRoot p post store content freshId now).1 = .error e →
      (createRoot p post store content freshId now).2 = store) := by
  by_cases hcan : (can p .createComment (some (postResource post))).allowed = true
  · cases hst : post.state with
    | draft =>
      refine ⟨fun _ _ => by simp [createRoot, hcan, hst], fun hok => ?_, fun e _ => ?_⟩
      · simp [createRoot, hcan, hst] at hok
      · simp [createRoot, hcan, hst]
    | published =>
      refine ⟨fun _ hd => (by simp [hst] at hd), fun _ => ?_, fun e he => ?_⟩
      · exact ⟨rfl, hcan, by simp [createRoot, hcan, hst]⟩
      · simp [createRoot, hcan, hst] at he
  · refine ⟨fun hc => absurd hc hcan, fun hok => ?_, fun e _ => ?_⟩
    · simp [createRoot, hcan] at hok
    · simp [createRoot, hcan]

/-- Witness for the amended C4 at concrete inputs: a reader on a draft
post gets `PostNotCommentable`. -/
theorem createRoot_postNotCommentable_witness :
    ((can ⟨9, [.reader]⟩ .createComment (some (postResource ⟨1, 5, .draft, "d"⟩))).allowed = true →
      PostState.draft = .draft →
      createRoot ⟨9, [.reader]⟩ ⟨1, 5, .draft, "d"⟩ [] "hello" 10 0 =
        (.error .postNotCommentable, [])) ∧
    ((createRoot ⟨9, [.reader]⟩ ⟨1, 5, .draft, "d"⟩ [] "hello" 10 0).1 = .ok () →
      PostState.draft = .published ∧
      (can ⟨9, [.reader]⟩ .createComment (some (postResource ⟨1, 5, .draft, "d"⟩))).allowed = true ∧
      (createRoot ⟨9, [.reader]⟩ ⟨1, 5, .draft, "d"⟩ [] "hello" 10 0).2 =
        [⟨10, 1, 9, none, "hello", 0⟩]) ∧
    (∀ e, (createRoot ⟨9, [.reader]⟩ ⟨1, 5, .draft, "d"⟩ [] "hello" 10 0).1 = .error e →
      (createRoot ⟨9, [.reader]⟩ ⟨1, 5, .draft, "d"⟩ [] "hello" 10 0).2 = []) :=
  createRoot_postNotCommentable ⟨9, [.reader]⟩ ⟨1, 5, .draft, "d"⟩ [] "hello" 10 0

/-- C9: constructing a reply whose declared post id differs from its
parent comment's post id returns `CrossPostReply` for every principal —
the structural check precedes the authorization check — and the invariant
that no stored reply carries a post id different from its parent's post id
is preserved by every reply construction. -/
theorem constructReply_crossPost_invariant (p : Principal) (store : List Comment)
    (postId : Nat) (parent : Comment) (content : String) (freshId now : Nat) :
    (parent.post_id ≠ postId →
      constructReply p store postId parent content freshId now =
        (.error .crossPostReply, store)) ∧
    (sameParentPost store → parentsConsistent store →
      (store.map (fun c => c.id)).Nodup → parent ∈ store →
      freshId ∉ store.map (fun c => c.id) →
      sameParentPost (constructReply p store postId parent content freshId now).2) := by
  constructor
  · intro h
    simp [constructReply, h]
  · intro hsp hpc hnd hparent hfresh
    by_cases hcross : parent.post_id ≠ postId
    · simpa [constructReply, hcross] using hsp
    · push_neg at hcross
      have hne : ¬ (parent.post_id ≠ postId) := by simp [hcross]
      by_cases hcan :
          (can p .replyToComment (some ⟨.post, parent.post_id, none⟩)).allowed = true
      · have hres : (constructReply p store postId parent content freshId now).2 =
            ⟨freshId, postId, p.id, some parent.id, content, now⟩ :: store := by
          simp only [constructReply, if_neg hne, if_pos hcan]
        rw [hres]
        intro c hc q hq hpar
        rcases List.mem_cons.mp hc with hc1 | hc2 <;>
          rcases List.mem_cons.mp hq with hq1 | hq2
        · subst hc1
          subst hq1
          simp only [Option.some.injEq] at hpar
          exfalso
          apply hfresh
          rw [← hpar]
          exact List.mem_map_of_mem _ hparent
        · subst hc1
          simp only [Option.some.injEq] at hpar
          have hqp : q = parent := by
            refine List.inj_on_of_nodup_map hnd hq2 hparent ?_
            simpa using hpar.symm
          subst hqp
          simpa using hcross.symm
        · subst hq1
          exfalso
          obtain ⟨q2, hq2m, hq2id, _⟩ := hpc c hc2 freshId (by simpa using hpar)
          apply hfresh
          rw [← hq2id]
          exact List.mem_map_of_mem _ hq2m
        · exact hsp c hc2 q hq2 hpar
      · have hres : (constructReply p store postId parent content freshId now).2 = store := by
          simp only [constructReply, if_neg hne, if_neg hcan]
        rw [hres]
        exact hsp

/-- Witness for C9 at concrete inputs: an admin attempting a cross-post
reply is rejected structurally, and a well-formed construction preserves
the invariant. -/
theorem constructReply_crossPost_invariant_witness :
    constructReply ⟨9, [.admin]⟩ [⟨1, 10, 7, none, "a", 0⟩] 99 ⟨1, 10, 7, none, "a", 0⟩ "r" 5 3 =
      (.error .crossPostReply, [⟨1, 10, 7, none, "a", 0⟩]) ∧
    sameParentPost (constructReply ⟨9, [.reader]⟩ [⟨1, 10, 7, none, "a", 0⟩] 10
      ⟨1, 10, 7, none, "a", 0⟩ "r" 5 3).2 :=
  ⟨(constructReply_crossPost_invariant ⟨9, [.admin]⟩ [⟨1, 10, 7, none, "a", 0⟩] 99
      ⟨1, 10, 7, none, "a", 0⟩ "r" 5 3).1 (by simp),
    (constructReply_crossPost_invariant ⟨9, [.reader]⟩ [⟨1, 10, 7, none, "a", 0⟩] 10
      ⟨1, 10, 7, none, "a", 0⟩ "r" 5 3).2
      (by intro c hc q hq hpar; simp at hc hq; subst hc; subst hq; simp at hpar)
      (by intro c hc pid hpid; simp at hc; subst hc; simp at hpid)
      (by simp) (by simp) (by simp)⟩

/-- Absence of a post id in the store makes the lookup fail. -/
theorem findPost_eq_none (posts : List Post) (postId : Nat)
    (h : postId ∉ posts.map (fun q => q.id)) : findPost posts postId = none := by
  rw [findPost, List.find?_eq_none]
  intro x hx hid
  simp at hid
  exact h (hid ▸ List.mem_map_of_mem _ hx)

/-- Absence of a comment id in the store makes the lookup fail. -/
theorem findComment_eq_none (store : List Comment) (commentId : Nat)
    (h : commentId ∉ store.map (fun c => c.id)) : findComment store commentId = none := by
  rw [findComment, List.find?_eq_none]
  intro x hx hid
  simp at hid
  exact h (hid ▸ List.mem_map_of_mem _ hx)

/-- C10: every mutation addressed at a post, comment or user id that is
not present in the store — update, delete, publish, unpublish, reply-to,
admin user delete (the latter behind its admin gate) — returns the
distinct not-found error and leaves the store unchanged; not-found is
outside the spec's closed set of policy-denial, lifecycle-conflict,
structural and administrative reasons. -/
theorem missing_id_not_found (p : Principal) (posts : List Post)
    (store : List Comment) (users : List Nat) (postId commentId userId : Nat)
    (content : String) (freshId now : Nat)
    (hp : postId ∉ posts.map (fun q => q.id))
    (hc : commentId ∉ store.map (fun c => c.id))
    (hu : userId ∉ users) (hadm : p.isAdmin = true) :
    publishPostById p posts postId = (.error .notFound, posts) ∧
    unpublishPostById p posts postId = (.error .notFound, posts) ∧
    updatePostById p posts postId content = (.error .notFound, posts) ∧
    deletePostById p posts store postId = (.error .notFound, posts, store) ∧
    deleteCommentById p store commentId = (.error .notFound, store) ∧
    editCommentById p store commentId content = (.error .notFound, store) ∧
    replyById p store commentId content freshId now = (.error .notFound, store) ∧
    adminDeleteUser p users userId = (.error .notFound, users) ∧
    (∀ dr, OpError.notFound ≠ .denied dr) ∧
    OpError.notFound ≠ .alreadyPublished ∧
    OpError.notFound ≠ .notPublished ∧
    OpError.notFound ≠ .postNotCommentable ∧
    OpError.notFound ≠ .crossPostReply ∧
    OpError.notFound ≠ .selfDeletionForbidden := by
  have hfp := findPost_eq_none posts postId hp
  have hfc := findComment_eq_none store commentId hc
  have hcan : (can p .manageUsers (some ⟨.user, userId, none⟩)).allowed = true := by
    simp [can, hadm]
  refine ⟨?_, ?_, ?_, ?_, ?_, ?_, ?_, ?_, fun dr => by simp, by simp, by simp,
    by simp, by simp, by simp⟩
  · unfold publishPostById
    rw [hfp]
  · unfold unpublishPostById
    rw [hfp]
  · unfold updatePostById
    rw [hfp]
  · unfold deletePostById
    rw [hfp]
  · unfold deleteCommentById
    rw [hfc]
  · unfold editCommentById
    rw [hfc]
  · unfold replyById
    rw [hfc]
  · simp [adminDeleteUser, hcan, hu]

/-- Witness for C10 at concrete inputs: an admin addressing ids absent
from singleton stores. -/
theorem missing_id_not_found_witness :
    publishPostById ⟨1, [.admin]⟩ [⟨1, 7, .draft, "x"⟩] 9 =
      (.error .notFound, [⟨1, 7, .draft, "x"⟩]) ∧
    unpublishPostById ⟨1, [.admin]⟩ [⟨1, 7, .draft, "x"⟩] 9 =
      (.error .notFound, [⟨1, 7, .draft, "x"⟩]) ∧
    updatePostById ⟨1, [.admin]⟩ [⟨1, 7, .draft, "x"⟩] 9 "c" =
      (.error .notFound, [⟨1, 7, .draft, "x"⟩]) ∧
    deletePostById ⟨1, [.admin]⟩ [⟨1, 7, .draft, "x"⟩] [⟨4, 1, 7, none, "a", 0⟩] 9 =
      (.error .notFound, [⟨1, 7, .draft, "x"⟩], [⟨4, 1, 7, none, "a", 0⟩]) ∧
    deleteCommentById ⟨1, [.admin]⟩ [⟨4, 1, 7, none, "a", 0⟩] 9 =
      (.error .notFound, [⟨4, 1, 7, none, "a", 0⟩]) ∧
    editCommentById ⟨1, [.admin]⟩ [⟨4, 1, 7, none, "a", 0⟩] 9 "c" =
      (.error .notFound, [⟨4, 1, 7, none, "a", 0⟩]) ∧
    replyById ⟨1, [.admin]⟩ [⟨4, 1, 7, none, "a", 0⟩] 9 "c" 8 2 =
      (.error .notFound, [⟨4, 1, 7, none, "a", 0⟩]) ∧
    adminDeleteUser ⟨1, [.admin]⟩ [1, 2] 9 = (.error .notFound, [1, 2]) ∧
    (∀ dr, OpError.notFound ≠ .denied dr) ∧
    OpError.notFound ≠ .alreadyPublished ∧
    OpError.notFound ≠ .notPublished ∧
    OpError.notFound ≠ .postNotCommentable ∧
    OpError.notFound ≠ .crossPostReply ∧
    OpError.notFound ≠ .selfDeletionForbidden :=
  missing_id_not_found ⟨1, [.admin]⟩ [⟨1, 7, .draft, "x"⟩] [⟨4, 1, 7, none, "a", 0⟩]
    [1, 2] 9 9 9 "c" 8 2 (by simp) (by simp) (by simp) rfl

/-- The reachability step only grows the id set. -/
theorem subset_childStep (store : List Comment) (s : Finset Nat) :
    s ⊆ childStep store s :=
  Finset.subset_union_left

/-- The reachability step stays inside any bound containing the set and
all ids of the store. -/
theorem childStep_subset (store : List Comment) (s bound : Finset Nat)
    (hs : s ⊆ bound) (hb : ∀ c ∈ store, c.id ∈ bound) :
    childStep store s ⊆ bound := by
  intro x hx
  rcases Finset.mem_union.mp hx with h | h
  · exact hs h
  · rw [List.mem_toFinset, List.mem_map] at h
    obtain ⟨c, hc, hid⟩ := h
    exact hid ▸ hb c (List.mem_of_mem_filter hc)

/-- Iterating the reachability step stays inside the store ids plus the
root. -/
theorem iterate_childStep_subset (store : List Comment) (root : Nat) (n : Nat) :
    (childStep store)^[n] {root} ⊆ insert root (commentIdSet store) := by
  induction n with
  | zero =>
    simp
  | succ n ih =>
    rw [Function.iterate_succ_apply']
    refine childStep_subset store _ _ ih ?_
    intro c hc
    exact Finset.mem_insert_of_mem (List.mem_toFinset.mpr (List.mem_map_of_mem _ hc))

/-- The root belongs to every iterate of the reachability step. -/
theorem root_mem_iterate (store : List Comment) (root : Nat) (n : Nat) :
    root ∈ (childStep store)^[n] {root} := by
  induction n with
  | zero => simp
  | succ n ih =>
    rw [Function.iterate_succ_apply']
    exact subset_childStep store _ ih

/-- Each iterate is either already a fixpoint of the reachability step or
has grown by at least one id per step. -/
theorem iterate_childStep_fix_or_card (store : List Comment) (root : Nat) :
    ∀ n : Nat, childStep store ((childStep store)^[n] {root}) = (childStep store)^[n] {root} ∨
      n + 1 ≤ ((childStep store)^[n] {root}).card := by
  intro n
  induction n with
  | zero =>
    right
    simp
  | succ n ih =>
    rcases ih with hfix | hcard
    · left
      rw [Function.iterate_succ_apply', hfix, hfix]
    · by_cases hfix : childStep store ((childStep store)^[n] {root}) = (childStep store)^[n] {root}
      · left
        rw [Function.iterate_succ_apply', hfix, hfix]
      · right
        rw [Function.iterate_succ_apply']
        have hss : (childStep store)^[n] {root} ⊂ childStep store ((childStep store)^[n] {root}) :=
          Finset.ssubset_iff_subset_ne.mpr ⟨subset_childStep store _, fun h => hfix h.symm⟩
        have := Finset.card_lt_card hss
        omega

/-- The subtree id set is a fixpoint of the reachability step. -/
theorem childStep_subtreeIds (store : List Comment) (root : Nat) :
    childStep store (subtreeIds store root) = subtreeIds store root := by
  rcases iterate_childStep_fix_or_card store root (store.length + 1) with hfix | hcard
  · exact hfix
  · exfalso
    have hsub := iterate_childStep_subset store root (store.length + 1)
    have h1 := Finset.card_le_card hsub
    have h2 : (insert root (commentIdSet store)).card ≤ (commentIdSet store).card + 1 := by
      exact Finset.card_insert_le _ _
    have h3 : (commentIdSet store).card ≤ store.length := by
      calc (commentIdSet store).card ≤ (store.map (fun c => c.id)).length :=
            List.toFinset_card_le _
        _ = store.length := List.length_map _ _
    omega

/-- The root belongs to its own subtree id set. -/
theorem root_mem_subtreeIds (store : List Comment) (root : Nat) :
    root ∈ subtreeIds store root :=
  root_mem_iterate store root (store.length + 1)

/-- The subtree id set is closed under taking children. -/
theorem subtreeIds_closed (store : List Comment) (root : Nat) (c : Comment)
    (hc : c ∈ store) (pid : Nat) (hpid : c.parent_comment_id = some pid)
    (hmem : pid ∈ subtreeIds store root) : c.id ∈ subtreeIds store root := by
  rw [← childStep_subtreeIds store root]
  apply Finset.mem_union_right
  rw [List.mem_toFinset, List.mem_map]
  refine ⟨c, ?_, rfl⟩
  rw [List.mem_filter]
  refine ⟨hc, ?_⟩
  rw [hpid]
  simpa using hmem

/-- Soundness of the reachability scan: every id in the subtree set is the
root or a descendant of the root. -/
theorem subtreeIds_sound (store : List Comment) (root : Nat) (x : Nat)
    (hx : x ∈ subtreeIds store root) : x = root ∨ Desc store root x := by
  suffices h : ∀ n, ∀ y ∈ (childStep store)^[n] {root}, y = root ∨ Desc store root y from
    h (store.length + 1) x hx
  intro n
  induction n with
  | zero =>
    intro y hy
    left
    simpa using hy
  | succ n ih =>
    intro y hy
    rw [Function.iterate_succ_apply'] at hy
    rcases Finset.mem_union.mp hy with h | h
    · exact ih y h
    · rw [List.mem_toFinset, List.mem_map] at h
      obtain ⟨c, hcf, hid⟩ := h
      rw [List.mem_filter] at hcf
      obtain ⟨hcs, hpred⟩ := hcf
      cases hpc : c.parent_comment_id with
      | none =>
        rw [hpc] at hpred
        simp at hpred
      | some pid =>
        rw [hpc] at hpred
        have hpid : pid ∈ (childStep store)^[n] {root} := by simpa using hpred
        rcases ih pid hpid with hr | hd
        · exact Or.inr (hid ▸ Desc.child c hcs (hr ▸ hpc))
        · exact Or.inr (hid ▸ Desc.step pid c hd hcs hpc)

/-- Completeness of the reachability scan: every descendant id is in the
subtree set. -/
theorem subtreeIds_complete (store : List Comment) (root : Nat) (x : Nat)
    (hx : Desc store root x) : x ∈ subtreeIds store root := by
  induction hx with
  | child c hc hp =>
    exact subtreeIds_closed store root c hc root hp (root_mem_subtreeIds store root)
  | step b c hd hc hp ih =>
    exact subtreeIds_closed store root c hc b hp ih

/-- A store with distinct ids contains exactly one comment carrying a
present id. -/
theorem length_filter_id_eq_one (root : Nat) (c : Comment) (hid : c.id = root) :
    ∀ l : List Comment, (l.map (fun x => x.id)).Nodup → c ∈ l →
      (l.filter fun x => decide (x.id = root)).length = 1 := by
  intro l
  induction l with
  | nil =>
    intro _ h
    cases h
  | cons a l ih =>
    intro hnd hc
    rw [List.map_cons, List.nodup_cons] at hnd
    rcases List.mem_cons.mp hc with rfl | hmem
    · have hnil : (l.filter fun x => decide (x.id = root)) = [] := by
        rw [List.filter_eq_nil_iff]
        intro x hx
        simp only [decide_eq_true_eq]
        intro hxid
        exact hnd.1 (by rw [hid, ← hxid]; exact List.mem_map_of_mem _ hx)
      rw [List.filter_cons]
      simp [hid, hnil]
    · have hane : ¬ (a.id = root) := by
        intro h
        exact hnd.1 (by rw [h, ← hid]; exact List.mem_map_of_mem _ hmem)
      rw [List.filter_cons]
      simp [hane, ih hnd.2 hmem]

/-- Counting a disjunction of two mutually exclusive predicates splits
into a sum. -/
theorem countP_split (l : List Comment) (p q : Comment → Bool)
    (hd : ∀ x ∈ l, p x = true → q x = false) :
    l.countP (fun x => p x || q x) = l.countP p + l.countP q := by
  induction l with
  | nil => simp
  | cons a l ih =>
    have hd2 : ∀ x ∈ l, p x = true → q x = false :=
      fun x hx => hd x (List.mem_cons_of_mem a hx)
    rw [List.countP_cons, List.countP_cons, List.countP_cons, ih hd2]
    by_cases hp : p a = true
    · have hq := hd a (List.mem_cons_self a l) hp
      simp only [hp, hq]
      simp
      omega
    · simp only [Bool.not_eq_true] at hp
      simp only [hp]
      simp
      omega

/-- The comments removed by a cascade are the target plus its
descendants, one of each. -/
theorem removed_card (store : List Comment) (root : Nat)
    (hnd : (store.map (fun x => x.id)).Nodup) (c : Comment) (hc : c ∈ store)
    (hid : c.id = root) :
    (store.filter fun x => decide (x.id ∈ subtreeIds store root)).length =
      1 + (descendantComments store root).length := by
  have hroot := root_mem_subtreeIds store root
  rw [descendantComments]
  rw [← List.countP_eq_length_filter, ← List.countP_eq_length_filter]
  have hpt : ∀ x ∈ store, (decide (x.id ∈ subtreeIds store root) = true) ↔
      ((decide (x.id = root) || decide (x.id ≠ root ∧ x.id ∈ subtreeIds store root)) = true) := by
    intro x hx
    by_cases h1 : x.id = root
    · simp [h1, hroot]
    · simp [h1]
  rw [List.countP_congr hpt]
  rw [countP_split store _ _ ?hdisj]
  case hdisj =>
    intro x hx hp
    simp only [decide_eq_true_eq] at hp
    simp [hp]
  have h1 : store.countP (fun x => decide (x.id = root)) = 1 := by
    rw [List.countP_eq_length_filter]
    exact length_filter_id_eq_one root c hid store hnd hc
  omega

/-- The store splits into the kept comments and the removed subtree. -/
theorem store_length_split (store : List Comment) (root : Nat) :
    store.length = (removeSubtree store root).length +
      (store.filter fun x => decide (x.id ∈ subtreeIds store root)).length := by
  rw [removeSubtree]
  rw [List.length_eq_length_filter_add (fun x => decide (x.id ∉ subtreeIds store root))]
  have heq : (List.filter (fun x => !decide (x.id ∉ subtreeIds store root)) store) =
      (List.filter (fun x => decide (x.id ∈ subtreeIds store root)) store) := by
    apply List.filter_congr
    intro x hx
    simp
  rw [heq]

/-- Every descendant is witnessed by a stored comment with a present
parent reference. -/
theorem desc_has_parent (store : List Comment) (root x : Nat) (h : Desc store root x) :
    ∃ q ∈ store, q.id = x ∧ ∃ b, q.parent_comment_id = some b := by
  cases h with
  | child cc hm hp => exact ⟨cc, hm, rfl, root, hp⟩
  | step b cc hd hm hp => exact ⟨cc, hm, rfl, b, hp⟩

/-- A root whose stored comments carry no parent reference is not its own
descendant. -/
theorem not_desc_self_of_root_parent_none (store : List Comment) (root : Nat)
    (h : ∀ q ∈ store, q.id = root → q.parent_comment_id = none) :
    ¬ Desc store root root := by
  intro hd
  obtain ⟨q, hm, hid, b, hp⟩ := desc_has_parent store root root hd
  rw [h q hm hid] at hp
  cases hp

/-- C7: for every comment `c` present in a store with distinct ids and not
its own descendant, a successful (authorized) delete removes exactly `c`
and all of its descendants — nothing of the subtree remains, every comment
outside the subtree is kept, the computed descendant list characterizes
the descendant relation, and the store shrinks by the descendant count
plus one — while every failing delete leaves the store unchanged. -/
theorem deleteComment_cascade (p : Principal) (store : List Comment) (root : Nat)
    (c : Comment) (hnd : (store.map (fun x => x.id)).Nodup)
    (hfind : findComment store root = some c) (hacyc : ¬ Desc store root root) :
    ((can p .deleteComment (some (commentResource c))).allowed = true →
      (deleteCommentById p store root).1 = .ok () ∧
      (∀ x ∈ (deleteCommentById p store root).2, ¬ (x.id = root ∨ Desc store root x.id)) ∧
      (∀ x ∈ store, ¬ (x.id = root ∨ Desc store root x.id) →
        x ∈ (deleteCommentById p store root).2) ∧
      (∀ x ∈ store, (x ∈ descendantComments store root ↔ Desc store root x.id)) ∧
      store.length = (deleteCommentById p store root).2.length +
        (descendantComments store root).length + 1) ∧
    (∀ e, (deleteCommentById p store root).1 = .error e →
      (deleteCommentById p store root).2 = store) := by
  have hcs : c ∈ store := List.mem_of_find?_eq_some hfind
  have hcid : c.id = root := by
    have := List.find?_some hfind
    simpa using this
  constructor
  · intro hcan
    have hres1 : (deleteCommentById p store root).1 = .ok () := by
      simp [deleteCommentById, hfind, hcan]
    have hres2 : (deleteCommentById p store root).2 = removeSubtree store root := by
      simp [deleteCommentById, hfind, hcan]
    refine ⟨hres1, ?_, ?_, ?_, ?_⟩
    · rw [hres2]
      intro x hx
      rw [removeSubtree, List.mem_filter] at hx
      obtain ⟨hxs, hxd⟩ := hx
      simp only [decide_eq_true_eq] at hxd
      rintro (hxr | hxdesc)
      · exact hxd (hxr ▸ root_mem_subtreeIds store root)
      · exact hxd (subtreeIds_complete store root _ hxdesc)
    · rw [hres2]
      intro x hxs hnot
      rw [removeSubtree, List.mem_filter]
      refine ⟨hxs, ?_⟩
      simp only [decide_eq_true_eq]
      intro hxin
      exact hnot (subtreeIds_sound store root _ hxin)
    · intro x hxs
      constructor
      · intro hxd
        rw [descendantComments, List.mem_filter] at hxd
        obtain ⟨_, hh⟩ := hxd
        simp only [decide_eq_true_eq] at hh
        rcases subtreeIds_sound store root _ hh.2 with h | h
        · exact absurd h hh.1
        · exact h
      · intro hdesc
        rw [descendantComments, List.mem_filter]
        refine ⟨hxs, ?_⟩
        simp only [decide_eq_true_eq]
        refine ⟨?_, subtreeIds_complete store root _ hdesc⟩
        intro hxr
        exact hacyc (hxr ▸ hdesc)
    · rw [hres2]
      have hsplit := store_length_split store root
      have hrem := removed_card store root hnd c hcs hcid
      omega
  · intro e he
    by_cases hcan : (can p .deleteComment (some (commentResource c))).allowed = true
    · simp [deleteCommentById, hfind, hcan] at he
    · simp [deleteCommentById, hfind, hcan]

/-- Witness for C7 at a concrete input: the owner of a root comment with
two chained descendant replies deletes it; the four-comment store shrinks
to one. -/
theorem deleteComment_cascade_witness :
    (deleteCommentById ⟨7, [.reader]⟩
      [⟨1, 10, 7, none, "a", 0⟩, ⟨2, 10, 8, some 1, "b", 0⟩,
        ⟨3, 10, 9, some 2, "c", 0⟩, ⟨4, 10, 9, none, "d", 0⟩] 1).1 = .ok () ∧
    ([⟨1, 10, 7, none, "a", 0⟩, ⟨2, 10, 8, some 1, "b", 0⟩,
        ⟨3, 10, 9, some 2, "c", 0⟩, ⟨4, 10, 9, none, "d", 0⟩] : List Comment).length =
      (deleteCommentById ⟨7, [.reader]⟩
        [⟨1, 10, 7, none, "a", 0⟩, ⟨2, 10, 8, some 1, "b", 0⟩,
          ⟨3, 10, 9, some 2, "c", 0⟩, ⟨4, 10, 9, none, "d", 0⟩] 1).2.length +
        (descendantComments
          [⟨1, 10, 7, none, "a", 0⟩, ⟨2, 10, 8, some 1, "b", 0⟩,
            ⟨3, 10, 9, some 2, "c", 0⟩, ⟨4, 10, 9, none, "d", 0⟩] 1).length + 1 := by
  have h := deleteComment_cascade ⟨7, [.reader]⟩
    [⟨1, 10, 7, none, "a", 0⟩, ⟨2, 10, 8, some 1, "b", 0⟩,
      ⟨3, 10, 9, some 2, "c", 0⟩, ⟨4, 10, 9, none, "d", 0⟩] 1
    ⟨1, 10, 7, none, "a", 0⟩ (by decide) (by decide)
    (not_desc_self_of_root_parent_none _ _ (by decide))
  exact ⟨(h.1 (by decide)).1, (h.1 (by decide)).2.2.2.2⟩

end Blog
